import Mathlib

/-!
Verification of the Perfetto extension build script (`build.py`).

The script reads a config (namespace, name) and a source tree
`src/{module}/{feature}/`, collects SQL modules, macro definitions and
proto descriptors per module, writes one JSON file per feature per
module, and writes a top-level manifest.

The embedding below models:
  - filesystem directories as `Option (List _)` (absent directory = `none`),
    with the list order being the enumeration order the OS reports;
  - relative file paths as their list of path segments (the script's
    `os.path.relpath` + `split('/')` round trip);
  - the external `protoc` invocation as a per-file outcome (`ProtocOutcome`),
    since the compiler's behaviour is an input to the script's control flow:
    `notFound` is a `FileNotFoundError` from `subprocess.check_call`,
    `fails` is any other propagating error, `ok bytes` is a successful run
    that leaves `bytes` in the temporary descriptor file;
  - fallible code (Python `KeyError` on a missing dict key, propagating
    subprocess errors) as `Except String`;
  - `json.dump(data, f, indent=2, ensure_ascii=False)` plus the trailing
    newline as an executable serializer over a `Json` value type.  YAML/JSON
    scalar values inside a macro command's `args` list are abstracted as
    strings (the script passes them through verbatim and never inspects them);
  - Python's string comparison (used by `sorted` / `list.sort`) as
    code-point lexicographic comparison `lexLe` (the core `String.le` is not
    kernel-reducible, so the order is defined structurally here).
-/

/-- Code-point lexicographic comparison of character lists; this is exactly
Python's `str` comparison, which `sorted` and `list.sort` use. -/
def lexLe : List Char → List Char → Bool
  | [], _ => true
  | _ :: _, [] => false
  | a :: as, b :: bs =>
    if a = b then lexLe as bs
    else decide (a.toNat < b.toNat)

/-- Python string `<=` comparison. -/
def strLeB (s t : String) : Bool := lexLe s.data t.data

/-- Comparison of values by a string key, as in `sorted(xs, key=...)` or
`xs.sort(key=...)`. -/
def keyLe {α : Type} (key : α → String) (a b : α) : Prop := strLeB (key a) (key b) = true

instance keyLeDec {α : Type} (key : α → String) : DecidableRel (keyLe key) :=
  fun a b => inferInstanceAs (Decidable (strLeB (key a) (key b) = true))

/-- Python `s.endswith(suffix)`. -/
def strEndsWith (s sfx : String) : Bool := List.isSuffixOf sfx.data s.data

/-- Python `s[:-n]` for `n > 0`: drop the last `n` characters (empty result
when the string is shorter than `n`, as in Python). -/
def strDropRight (s : String) (n : Nat) : String :=
  String.mk (s.data.take (s.data.length - n))

/-- Python `s.rstrip('\n')`: remove all trailing newline characters. -/
def rstripNewlines (s : String) : String :=
  String.mk ((s.data.reverse.dropWhile (fun c => c == '\n')).reverse)

/-- Decimal digit character. -/
def digitChar (n : Nat) : Char := Char.ofNat (48 + n % 10)

def natToStrAux : Nat → Nat → List Char
  | 0, _ => []
  | fuel + 1, n =>
    if n < 10 then [digitChar n]
    else natToStrAux fuel (n / 10) ++ [digitChar (n % 10)]

/-- Decimal representation of a natural number, as Python `str(n)`. -/
def natToStr (n : Nat) : String := String.mk (natToStrAux (n + 1) n)

/- JSON values as produced by the script: only strings, arrays and objects
occur in its output.  Arrays and objects use their own list types so that the
serializer below is structurally recursive (and hence kernel-reducible). -/

mutual

inductive Json where
  | str (s : String)
  | arr (elems : JsonItems)
  | obj (fields : JsonFields)

inductive JsonItems where
  | nil
  | cons (hd : Json) (tl : JsonItems)

inductive JsonFields where
  | nil
  | cons (key : String) (val : Json) (tl : JsonFields)
end

def jitems : List Json → JsonItems
  | [] => JsonItems.nil
  | x :: xs => JsonItems.cons x (jitems xs)

def jfields : List (String × Json) → JsonFields
  | [] => JsonFields.nil
  | (k, v) :: kvs => JsonFields.cons k v (jfields kvs)

def jarr (xs : List Json) : Json := Json.arr (jitems xs)

def jobj (kvs : List (String × Json)) : Json := Json.obj (jfields kvs)

def hexDigit (n : Nat) : Char := "0123456789abcdef".data.getD n '0'

/-- Escaping of one character inside a JSON string, as Python's
`json.dump(..., ensure_ascii=False)` does it. -/
def jsonEscapeChar (c : Char) : String :=
  if c = '"' then "\\\""
  else if c = '\\' then "\\\\"
  else if c = '\n' then "\\n"
  else if c = '\t' then "\\t"
  else if c = '\r' then "\\r"
  else if c = '\x08' then "\\b"
  else if c = '\x0c' then "\\f"
  else if c.toNat < 32 then "\\u00" ++ String.mk [hexDigit (c.toNat / 16), hexDigit (c.toNat % 16)]
  else String.mk [c]

def jsonEscape (s : String) : String :=
  "\"" ++ String.join (s.data.map jsonEscapeChar) ++ "\""

def pad (lvl : Nat) : String := String.mk (List.replicate (2 * lvl) ' ')

/- Serializer matching `json.dump(data, f, indent=2, ensure_ascii=False)`:
2-space indentation, a comma then a newline between items,
`": "` between key and value, empty containers rendered inline. -/

mutual

def jsonSer : Nat → Json → String
  | _, Json.str s => jsonEscape s
  | _, Json.arr JsonItems.nil => "[]"
  | lvl, Json.arr (JsonItems.cons x xs) =>
    "[\n" ++ serItems (lvl + 1) (JsonItems.cons x xs) ++ "\n" ++ pad lvl ++ "]"
  | _, Json.obj JsonFields.nil => "\x7b\x7d"
  | lvl, Json.obj (JsonFields.cons k v fs) =>
    "\x7b\n" ++ serFields (lvl + 1) (JsonFields.cons k v fs) ++ "\n" ++ pad lvl ++ "\x7d"

def serItems : Nat → JsonItems → String
  | _, JsonItems.nil => ""
  | lvl, JsonItems.cons x JsonItems.nil => pad lvl ++ jsonSer lvl x
  | lvl, JsonItems.cons x (JsonItems.cons y ys) =>
    pad lvl ++ jsonSer lvl x ++ ",\n" ++ serItems lvl (JsonItems.cons y ys)

def serFields : Nat → JsonFields → String
  | _, JsonFields.nil => ""
  | lvl, JsonFields.cons k v JsonFields.nil => pad lvl ++ jsonEscape k ++ ": " ++ jsonSer lvl v
  | lvl, JsonFields.cons k v (JsonFields.cons k2 v2 fs) =>
    pad lvl ++ jsonEscape k ++ ": " ++ jsonSer lvl v ++ ",\n" ++
      serFields lvl (JsonFields.cons k2 v2 fs)
end

/-- The script's `write_json`: serialize with 2-space indent and append a
trailing newline.  The returned string is the full byte content of the
written file. -/
def write_json (data : Json) : String := jsonSer 0 data ++ "\n"

/-- A file found by the recursive walk of a module's `sql_modules/` directory:
`parts` is its relative path as a list of segments (the script computes
`os.path.relpath(...)` and splits it on the separator; a path segment never
contains a separator), `content` is the file's text. -/
structure SqlFile where
  parts : List String
  content : String
deriving DecidableEq

/-- One entry of the emitted `sql_modules` list. -/
structure SqlModule where
  name : String
  sql : String
deriving DecidableEq

/-- Last path segment, i.e. the file name the walk reports. -/
def lastPart : List String → String
  | [] => ""
  | [b] => b
  | _ :: ps => lastPart ps

/-- The script's `parts[-1] = parts[-1][:-4]`: strip the `.sql` suffix from
the final path segment. -/
def stripSqlFromLast : List String → List String
  | [] => []
  | [b] => [strDropRight b 4]
  | p :: ps => p :: stripSqlFromLast ps

/-- The script's `collect_sql_modules`: walk all files under the directory,
keep those whose name ends in `.sql`, build the dotted name
`f"{namespace}.{'.'.join(parts)}"`, strip trailing newlines from the content,
and sort the result by name (`list.sort` is a stable sort).  An absent
directory yields the empty list. -/
def collect_sql_modules (sql_dir : Option (List SqlFile)) (nsp : String) : List SqlModule :=
  match sql_dir with
  | none => []
  | some files =>
    let mods := files.filterMap (fun f =>
      if strEndsWith (lastPart f.parts) ".sql" then
        some { name := nsp ++ "." ++ String.intercalate "." (stripSqlFromLast f.parts),
               sql := rstripNewlines f.content }
      else none)
    List.insertionSort (keyLe SqlModule.name) mods

/-- One entry of a macro definition file's `run` list, as parsed from
YAML/JSON: either field may be missing.  Command argument values are
abstracted as strings; the script passes them through without looking. -/
structure CmdData where
  id : Option String
  args : Option (List String)
deriving DecidableEq

/-- A parsed macro definition file body; any of the keys may be missing. -/
structure MacroData where
  id : Option String
  name : Option String
  run : Option (List CmdData)
deriving DecidableEq

/-- A file in a module's `macros/` directory. -/
structure MacroFile where
  fname : String
  data : MacroData
deriving DecidableEq

/-- A normalized command of an emitted macro. -/
structure Command where
  id : String
  args : List String
deriving DecidableEq

/-- An emitted macro. -/
structure MacroEntry where
  id : String
  name : String
  run : List Command
deriving DecidableEq

/-- The script's `{'id': cmd['id'], 'args': cmd.get('args', [])}`: a missing
`id` key raises `KeyError`, a missing `args` key defaults to `[]`. -/
def normalize_cmd (c : CmdData) : Except String Command :=
  match c.id with
  | none => Except.error "KeyError: id"
  | some i => Except.ok { id := i, args := c.args.getD [] }

/-- Normalization of the whole `data.get('run', [])` list, in order. -/
def normalize_run : List CmdData → Except String (List Command)
  | [] => Except.ok []
  | c :: cs =>
    match normalize_cmd c with
    | Except.error e => Except.error e
    | Except.ok x =>
      match normalize_run cs with
      | Except.error e => Except.error e
      | Except.ok xs => Except.ok (x :: xs)

/-- Building one emitted macro from a parsed file body: the `run` list is
normalized first (matching the script's loop), then `data['id']` and
`data['name']` are read (raising `KeyError` when missing). -/
def macro_from_data (d : MacroData) : Except String MacroEntry :=
  match normalize_run (d.run.getD []) with
  | Except.error e => Except.error e
  | Except.ok cmds =>
    match d.id with
    | none => Except.error "KeyError: id"
    | some i =>
      match d.name with
      | none => Except.error "KeyError: name"
      | some n => Except.ok { id := i, name := n, run := cmds }

/-- Filter for `fn.endswith('.yaml') or fn.endswith('.json')`. -/
def isMacroDefFile (fn : String) : Bool := strEndsWith fn ".yaml" || strEndsWith fn ".json"

/-- Loop of `collect_macros` over the sorted directory listing. -/
def collect_macros_sorted : List MacroFile → Except String (List MacroEntry)
  | [] => Except.ok []
  | f :: fs =>
    if isMacroDefFile f.fname then
      match macro_from_data f.data with
      | Except.error e => Except.error e
      | Except.ok m =>
        match collect_macros_sorted fs with
        | Except.error e => Except.error e
        | Except.ok ms => Except.ok (m :: ms)
    else collect_macros_sorted fs

/-- The script's `collect_macros`: `sorted(os.listdir(macros_dir))`, keep
`.yaml`/`.json` files, normalize each; an absent directory yields `[]`. -/
def collect_macros (macros_dir : Option (List MacroFile)) : Except String (List MacroEntry) :=
  match macros_dir with
  | none => Except.ok []
  | some entries => collect_macros_sorted (List.insertionSort (keyLe MacroFile.fname) entries)

/-- Outcome of invoking `protoc` on one `.proto` file: the binary may be
missing (`FileNotFoundError`), the invocation may fail in any other way
(uncaught, it propagates), or it succeeds leaving `bytes` in the descriptor
output file. -/
inductive ProtocOutcome where
  | notFound
  | fails (msg : String)
  | ok (bytes : List Nat)
deriving DecidableEq

/-- A file in a module's `proto_descriptors/` directory, together with what
invoking the external compiler on it does. -/
structure ProtoFile where
  fname : String
  outcome : ProtocOutcome
deriving DecidableEq

def b64Chars : List Char :=
  "ABCDEFGHIJKLMNOPQRSTUVWXYZabcdefghijklmnopqrstuvwxyz0123456789+/".data

def b64Char (n : Nat) : Char := b64Chars.getD n 'A'

/-- Standard base64 of a byte list with `=` padding, as
`base64.b64encode(...).decode('ascii')`. -/
def b64Encode : List Nat → String
  | [] => ""
  | [a] => String.mk [b64Char (a / 4 % 64), b64Char (a % 4 * 16), '=', '=']
  | [a, b] =>
    String.mk [b64Char (a / 4 % 64), b64Char (a % 4 * 16 + b / 16 % 16),
      b64Char (b % 16 * 4), '=']
  | a :: b :: c :: rest =>
    String.mk [b64Char (a / 4 % 64), b64Char (a % 4 * 16 + b / 16 % 16),
      b64Char (b % 16 * 4 + c / 64 % 4), b64Char (c % 64)] ++ b64Encode rest

/-- The warning printed when the compiler binary is missing. -/
def protoWarning (fn : String) : String := "Warning: protoc not found, skipping " ++ fn

/-- Loop of `collect_proto_descriptors` over the sorted, filtered listing.
Returns the encoded descriptors together with the warnings printed to stderr;
a `fails` outcome propagates as an error, aborting the loop. -/
def collect_protos_sorted : List ProtoFile → Except String (List String × List String)
  | [] => Except.ok ([], [])
  | f :: fs =>
    match f.outcome with
    | ProtocOutcome.notFound =>
      match collect_protos_sorted fs with
      | Except.error e => Except.error e
      | Except.ok (ds, ws) => Except.ok (ds, protoWarning f.fname :: ws)
    | ProtocOutcome.fails msg => Except.error msg
    | ProtocOutcome.ok bytes =>
      match collect_protos_sorted fs with
      | Except.error e => Except.error e
      | Except.ok (ds, ws) => Except.ok (b64Encode bytes :: ds, ws)

/-- The script's `collect_proto_descriptors`: `sorted(os.listdir(...))`,
keep `.proto` files, run the compiler on each; an absent directory yields
`[]` (and the early return on an empty `.proto` list coincides with running
the loop on an empty list). -/
def collect_proto_descriptors (proto_dir : Option (List ProtoFile)) :
    Except String (List String × List String) :=
  match proto_dir with
  | none => Except.ok ([], [])
  | some entries =>
    collect_protos_sorted
      ((List.insertionSort (keyLe ProtoFile.fname) entries).filter
        (fun f => strEndsWith f.fname ".proto"))

/-- A module's source directory `src/{module}/`, holding the three feature
sub-directories (each possibly absent). -/
structure ModuleDir where
  sqlModules : Option (List SqlFile)
  macros : Option (List MacroFile)
  protoDescriptors : Option (List ProtoFile)
deriving DecidableEq

/-- An entry of the source root `src/`: the script keeps only directories
(`os.path.isdir` filter), so plain files are represented separately. -/
inductive SrcEntry where
  | file (name : String)
  | dir (name : String) (contents : ModuleDir)
deriving DecidableEq

/-- The sub-directory entries of the source root, in enumeration order; the
script re-reads each by name, which on a real filesystem (unique names per
directory) is the same as carrying the contents along. -/
def dirsOf (entries : List SrcEntry) : List (String × ModuleDir) :=
  entries.filterMap (fun e =>
    match e with
    | SrcEntry.file _ => none
    | SrcEntry.dir n d => some (n, d))

/-- Names of the sub-directories of the source root, in enumeration order. -/
def dirNames (entries : List SrcEntry) : List String :=
  entries.filterMap (fun e =>
    match e with
    | SrcEntry.file _ => none
    | SrcEntry.dir n _ => some n)

/-- The script's `module_names = sorted(d for d in os.listdir(SRC_DIR) if
os.path.isdir(...))`, keeping each directory's contents paired with its
name. -/
def sortedDirs (entries : List SrcEntry) : List (String × ModuleDir) :=
  List.insertionSort (keyLe Prod.fst) (dirsOf entries)

def sqlModuleJson (m : SqlModule) : Json :=
  jobj [("name", Json.str m.name), ("sql", Json.str m.sql)]

def commandJson (c : Command) : Json :=
  jobj [("id", Json.str c.id), ("args", jarr (c.args.map Json.str))]

def macroJson (m : MacroEntry) : Json :=
  jobj [("id", Json.str m.id), ("name", Json.str m.name),
    ("run", jarr (m.run.map commandJson))]

/-- The payload of a per-module `sql_modules` output file. -/
def sqlModulesFileJson (ms : List SqlModule) : Json :=
  jobj [("sql_modules", jarr (ms.map sqlModuleJson))]

/-- The payload of a per-module `macros` output file. -/
def macrosFileJson (ms : List MacroEntry) : Json :=
  jobj [("macros", jarr (ms.map macroJson))]

/-- The payload of a per-module `proto_descriptors` output file. -/
def protosFileJson (ds : List String) : Json :=
  jobj [("proto_descriptors", jarr (ds.map Json.str))]

def featureJson (n : String) : Json := jobj [("name", Json.str n)]

/-- The top-level manifest payload: the extension name, the namespace, the
fixed list of the three feature kinds, and the module names each wrapped as
a single-key object. -/
def manifestJson (ext_name nsp : String) (mods : List String) : Json :=
  jobj [("name", Json.str ext_name), ("namespace", Json.str nsp),
    ("features", jarr [featureJson "macros", featureJson "sql_modules",
      featureJson "proto_descriptors"]),
    ("modules", jarr (mods.map featureJson))]

/-- The config loaded from `config.yaml`; `nsp` is its `namespace` key. -/
structure Config where
  nsp : String
  name : String
deriving DecidableEq

/-- What a run of the script produces: the written files as
(path segments, byte content) pairs, the warnings printed to stderr, and the
summary line printed to stdout. -/
structure BuildResult where
  outFiles : List (List String × String)
  warnings : List String
  summary : String
deriving DecidableEq

/-- The per-module body of the script's `build` loop: collect SQL modules,
macros and proto descriptors and write the three JSON files under
`modules/{module}/`.  A `KeyError` from a macro file or a propagating
compiler error aborts the build. -/
def build_module (nsp mname : String) (d : ModuleDir) :
    Except String (List (List String × String) × List String) :=
  let sql_mods := collect_sql_modules d.sqlModules nsp
  match collect_macros d.macros with
  | Except.error e => Except.error e
  | Except.ok ms =>
    match collect_proto_descriptors d.protoDescriptors with
    | Except.error e => Except.error e
    | Except.ok (ds, ws) =>
      Except.ok
        ([(["modules", mname, "sql_modules"], write_json (sqlModulesFileJson sql_mods)),
          (["modules", mname, "macros"], write_json (macrosFileJson ms)),
          (["modules", mname, "proto_descriptors"], write_json (protosFileJson ds))],
         ws)

/-- The `for module_name in module_names` loop, accumulating written files
and warnings. -/
def build_loop (nsp : String) :
    List (String × ModuleDir) → Except String (List (List String × String) × List String)
  | [] => Except.ok ([], [])
  | (n, d) :: rest =>
    match build_module nsp n d with
    | Except.error e => Except.error e
    | Except.ok (fs, ws) =>
      match build_loop nsp rest with
      | Except.error e => Except.error e
      | Except.ok (fs2, ws2) => Except.ok (fs ++ fs2, ws ++ ws2)

/-- The script's `build()`: enumerate and sort the module directories, run
the per-module loop, then write the manifest and print the summary line. -/
def build (config : Config) (entries : List SrcEntry) : Except String BuildResult :=
  let mods := sortedDirs entries
  let names := mods.map Prod.fst
  match build_loop config.nsp mods with
  | Except.error e => Except.error e
  | Except.ok (fs, ws) =>
    Except.ok
      { outFiles := fs ++ [(["manifest"], write_json (manifestJson config.name config.nsp names))],
        warnings := ws,
        summary := "Built " ++ natToStr names.length ++ " modules: " ++
          String.intercalate ", " names }

/-- The written files of a run, empty when the build aborted: used to compare
the on-disk outcome of two runs. -/
def resultFiles (r : Except String BuildResult) : List (List String × String) :=
  match r with
  | Except.error _ => []
  | Except.ok b => b.outFiles

instance exceptDecEq {ε α : Type} [DecidableEq ε] [DecidableEq α] : DecidableEq (Except ε α) :=
  fun x y =>
    match x, y with
    | Except.error e1, Except.error e2 =>
      if h : e1 = e2 then isTrue (by rw [h]) else isFalse (fun c => h (Except.error.inj c))
    | Except.error _, Except.ok _ => isFalse (fun c => Except.noConfusion c)
    | Except.ok _, Except.error _ => isFalse (fun c => Except.noConfusion c)
    | Except.ok a1, Except.ok a2 =>
      if h : a1 = a2 then isTrue (by rw [h]) else isFalse (fun c => h (Except.ok.inj c))

/-- Number of `.proto` files a module's `proto_descriptors` directory holds. -/
def protoCount (d : ModuleDir) : Nat :=
  ((d.protoDescriptors.getD []).filter (fun f => strEndsWith f.fname ".proto")).length

/-- Python string comparison as a relation; `sorted` on strings sorts
ascending with respect to it. -/
def pyStrLe (a b : String) : Prop := strLeB a b = true

theorem char_toNat_inj {a b : Char} (h : a.toNat = b.toNat) : a = b :=
  Char.ext (UInt32.toNat.inj h)

theorem lexLe_total : ∀ l1 l2 : List Char, lexLe l1 l2 = true ∨ lexLe l2 l1 = true
  | [], _ => Or.inl rfl
  | _ :: _, [] => Or.inr rfl
  | a :: as, b :: bs => by
    by_cases hab : a = b
    · subst hab
      simp only [lexLe, if_pos rfl]
      exact lexLe_total as bs
    · have hba : ¬b = a := fun h => hab h.symm
      simp only [lexLe, if_neg hab, if_neg hba]
      rcases Nat.lt_trichotomy a.toNat b.toNat with h | h | h
      · exact Or.inl (decide_eq_true h)
      · exact absurd (char_toNat_inj h) hab
      · exact Or.inr (decide_eq_true h)

theorem lexLe_trans : ∀ l1 l2 l3 : List Char,
    lexLe l1 l2 = true → lexLe l2 l3 = true → lexLe l1 l3 = true
  | [], _, _ => fun _ _ => rfl
  | _ :: _, [], _ => fun h _ => by simp [lexLe] at h
  | _ :: _, _ :: _, [] => fun _ h => by simp [lexLe] at h
  | a :: as, b :: bs, c :: cs => by
    intro h1 h2
    by_cases hab : a = b <;> by_cases hbc : b = c
    · subst hab; subst hbc
      simp only [lexLe, if_pos rfl] at h1 h2 ⊢
      exact lexLe_trans as bs cs h1 h2
    · subst hab
      simp only [lexLe, if_pos rfl, if_neg hbc] at h1 h2 ⊢
      exact h2
    · subst hbc
      simp only [lexLe, if_neg hab, if_pos rfl] at h1 h2 ⊢
      exact h1
    · simp only [lexLe, if_neg hab, if_neg hbc] at h1 h2
      have hlt1 : a.toNat < b.toNat := of_decide_eq_true h1
      have hlt2 : b.toNat < c.toNat := of_decide_eq_true h2
      have hlt : a.toNat < c.toNat := Nat.lt_trans hlt1 hlt2
      have hac : ¬a = c := fun h => by
        subst h
        exact Nat.lt_irrefl _ hlt
      simp only [lexLe, if_neg hac]
      exact decide_eq_true hlt

theorem lexLe_antisymm : ∀ l1 l2 : List Char,
    lexLe l1 l2 = true → lexLe l2 l1 = true → l1 = l2
  | [], [] => fun _ _ => rfl
  | [], _ :: _ => fun _ h => by simp [lexLe] at h
  | _ :: _, [] => fun h _ => by simp [lexLe] at h
  | a :: as, b :: bs => by
    intro h1 h2
    by_cases hab : a = b
    · subst hab
      simp only [lexLe, if_pos rfl] at h1 h2
      rw [lexLe_antisymm as bs h1 h2]
    · have hba : ¬b = a := fun h => hab h.symm
      simp only [lexLe, if_neg hab, if_neg hba] at h1 h2
      exact absurd (Nat.lt_trans (of_decide_eq_true h1) (of_decide_eq_true h2))
        (Nat.lt_irrefl _)

theorem str_data_inj {s t : String} (h : s.data = t.data) : s = t := by
  cases s
  cases t
  simp only at h
  rw [h]

instance keyLeTotal {α : Type} (key : α → String) : IsTotal α (keyLe key) :=
  ⟨fun a b => lexLe_total (key a).data (key b).data⟩

instance keyLeTrans {α : Type} (key : α → String) : IsTrans α (keyLe key) :=
  ⟨fun _ _ _ h1 h2 => lexLe_trans _ _ _ h1 h2⟩

theorem keyLe_key_antisymm {α : Type} (key : α → String) {a b : α}
    (h1 : keyLe key a b) (h2 : keyLe key b a) : key a = key b :=
  str_data_inj (lexLe_antisymm _ _ h1 h2)

/-- Two sorted lists that are permutations of each other and whose string keys
are pairwise distinct are equal.  This is the core of the determinism
argument: a sort by a duplicate-free key erases the enumeration order. -/
theorem sorted_key_nodup_eq {α : Type} (key : α → String) (l1 l2 : List α)
    (hp : List.Perm l1 l2) (hs1 : l1.Sorted (keyLe key)) (hs2 : l2.Sorted (keyLe key))
    (hn : (l1.map key).Nodup) : l1 = l2 := by
  have hn2 : (l2.map key).Nodup := (hp.map key).nodup hn
  have hne1 : l1.Pairwise (fun a b => key a ≠ key b) := List.pairwise_map.mp hn
  have hne2 : l2.Pairwise (fun a b => key a ≠ key b) := List.pairwise_map.mp hn2
  have hstrict1 : l1.Pairwise (fun a b => keyLe key a b ∧ key a ≠ key b) := hs1.and hne1
  have hstrict2 : l2.Pairwise (fun a b => keyLe key a b ∧ key a ≠ key b) := hs2.and hne2
  haveI : IsAntisymm α (fun a b => keyLe key a b ∧ key a ≠ key b) :=
    ⟨fun _ _ hab hba => absurd (keyLe_key_antisymm key hab.1 hba.1) hab.2⟩
  exact List.eq_of_perm_of_sorted hp hstrict1 hstrict2

theorem collect_sql_modules_some (files : List SqlFile) (nsp : String) :
    collect_sql_modules (some files) nsp =
      List.insertionSort (keyLe SqlModule.name)
        (files.filterMap (fun f =>
          if strEndsWith (lastPart f.parts) ".sql" then
            some { name := nsp ++ "." ++ String.intercalate "." (stripSqlFromLast f.parts),
                   sql := rstripNewlines f.content }
          else none)) := rfl

theorem mem_collect_sql_modules (nsp : String) (files : List SqlFile) (f : SqlFile)
    (hf : f ∈ files) (hsql : strEndsWith (lastPart f.parts) ".sql" = true) :
    ({ name := nsp ++ "." ++ String.intercalate "." (stripSqlFromLast f.parts),
       sql := rstripNewlines f.content } : SqlModule) ∈ collect_sql_modules (some files) nsp := by
  rw [collect_sql_modules_some]
  refine (List.perm_insertionSort _ _).mem_iff.mpr ?_
  exact List.mem_filterMap.mpr ⟨f, hf, by rw [if_pos hsql]⟩

theorem lastPart_append (ps : List String) (b : String) : lastPart (ps ++ [b]) = b := by
  induction ps with
  | nil => rfl
  | cons p ps ih =>
    cases ps with
    | nil => rfl
    | cons q qs => exact ih

theorem stripSqlFromLast_append (ps : List String) (b : String) :
    stripSqlFromLast (ps ++ [b]) = ps ++ [strDropRight b 4] := by
  induction ps with
  | nil => rfl
  | cons p ps ih =>
    cases ps with
    | nil => rfl
    | cons q qs => exact congrArg (List.cons p) ih

theorem rstripNewlines_decomp (s : String) :
    ∃ k, s.data = (rstripNewlines s).data ++ List.replicate k '\n' := by
  refine ⟨(s.data.reverse.takeWhile (fun c => c == '\n')).length, ?_⟩
  have hsplit : s.data.reverse.takeWhile (fun c => c == '\n') ++
      s.data.reverse.dropWhile (fun c => c == '\n') = s.data.reverse :=
    List.takeWhile_append_dropWhile (fun c => c == '\n') s.data.reverse
  have hrep : s.data.reverse.takeWhile (fun c => c == '\n') =
      List.replicate (s.data.reverse.takeWhile (fun c => c == '\n')).length '\n' := by
    apply List.eq_replicate_of_mem
    intro b hb
    have := List.mem_takeWhile_imp hb
    exact eq_of_beq this
  have hrev : (s.data.reverse.takeWhile (fun c => c == '\n')).reverse =
      List.replicate (s.data.reverse.takeWhile (fun c => c == '\n')).length '\n' := by
    conv_lhs => rw [hrep]
    rw [List.reverse_replicate]
  calc s.data = s.data.reverse.reverse := (List.reverse_reverse s.data).symm
    _ = (s.data.reverse.takeWhile (fun c => c == '\n') ++
          s.data.reverse.dropWhile (fun c => c == '\n')).reverse := by rw [hsplit]
    _ = (s.data.reverse.dropWhile (fun c => c == '\n')).reverse ++
          (s.data.reverse.takeWhile (fun c => c == '\n')).reverse := by
            rw [List.reverse_append]
    _ = (rstripNewlines s).data ++ (s.data.reverse.takeWhile (fun c => c == '\n')).reverse := rfl
    _ = (rstripNewlines s).data ++
          List.replicate (s.data.reverse.takeWhile (fun c => c == '\n')).length '\n' := by
            rw [hrev]

theorem head_dropWhile_false (p : Char → Bool) (l : List Char) (c : Char)
    (h : (l.dropWhile p).head? = some c) : p c = false := by
  induction l with
  | nil => simp [List.dropWhile] at h
  | cons a as ih =>
    rw [List.dropWhile] at h
    cases hpa : p a with
    | true =>
      rw [hpa] at h
      exact ih h
    | false =>
      rw [hpa] at h
      simp only [List.head?_cons, Option.some.injEq] at h
      rw [← h]
      exact hpa

theorem rstripNewlines_no_trailing (s : String) :
    (rstripNewlines s).data.getLast? ≠ some '\n' := by
  intro hlast
  have hhead : (s.data.reverse.dropWhile (fun c => c == '\n')).head? = some '\n' := by
    have : (rstripNewlines s).data =
        (s.data.reverse.dropWhile (fun c => c == '\n')).reverse := rfl
    rw [this, List.getLast?_reverse] at hlast
    exact hlast
  have := head_dropWhile_false (fun c => c == '\n') s.data.reverse '\n' hhead
  simp at this

/-- C2: for every collected `.sql` file, the emitted `sql` string is the
file's text with exactly the trailing newline characters removed: the
original content is the emitted string followed by some run of newlines, and
the emitted string does not itself end in a newline (so nothing internal is
touched and no trailing newline survives). -/
theorem sql_trailing_newlines_stripped (nsp : String) (files : List SqlFile) (f : SqlFile)
    (hf : f ∈ files) (hsql : strEndsWith (lastPart f.parts) ".sql" = true) :
    ∃ m ∈ collect_sql_modules (some files) nsp,
      m.sql = rstripNewlines f.content ∧
      (∃ k, f.content.data = m.sql.data ++ List.replicate k '\n') ∧
      m.sql.data.getLast? ≠ some '\n' := by
  refine ⟨_, mem_collect_sql_modules nsp files f hf hsql, rfl, ?_, ?_⟩
  · exact rstripNewlines_decomp f.content
  · exact rstripNewlines_no_trailing f.content

theorem sql_trailing_newlines_stripped_witness :
    (⟨["q.sql"], "a\n\nb\n\n"⟩ : SqlFile) ∈ [(⟨["q.sql"], "a\n\nb\n\n"⟩ : SqlFile)] ∧
    strEndsWith (lastPart ["q.sql"]) ".sql" = true ∧
    ∃ m ∈ collect_sql_modules (some [⟨["q.sql"], "a\n\nb\n\n"⟩]) "ns",
      m.sql = rstripNewlines "a\n\nb\n\n" ∧
      (∃ k, ("a\n\nb\n\n" : String).data = m.sql.data ++ List.replicate k '\n') ∧
      m.sql.data.getLast? ≠ some '\n' :=
  ⟨by decide, by decide,
    sql_trailing_newlines_stripped "ns" [⟨["q.sql"], "a\n\nb\n\n"⟩] ⟨["q.sql"], "a\n\nb\n\n"⟩
      (by decide) (by decide)⟩

/-- C3: for every `.sql` file under a module's SQL root, the emitted name is
the namespace, a dot, then the relative path segments joined by dots with
the `.sql` suffix stripped from the last segment; in particular `foo/bar.sql`
yields `ns.foo.bar` and `common.sql` yields `ns.common`. -/
theorem sql_module_naming :
    (∀ (nsp : String) (files : List SqlFile) (f : SqlFile) (ps : List String) (b : String),
      f ∈ files → f.parts = ps ++ [b] → strEndsWith b ".sql" = true →
      ∃ m ∈ collect_sql_modules (some files) nsp,
        m.name = nsp ++ "." ++ String.intercalate "." (ps ++ [strDropRight b 4])) ∧
    (∀ nsp c, ∃ m ∈ collect_sql_modules (some [⟨["foo", "bar.sql"], c⟩]) nsp,
      m.name = nsp ++ ".foo.bar") ∧
    (∀ nsp c, ∃ m ∈ collect_sql_modules (some [⟨["common.sql"], c⟩]) nsp,
      m.name = nsp ++ ".common") := by
  have main : ∀ (nsp : String) (files : List SqlFile) (f : SqlFile) (ps : List String)
      (b : String), f ∈ files → f.parts = ps ++ [b] → strEndsWith b ".sql" = true →
      ∃ m ∈ collect_sql_modules (some files) nsp,
        m.name = nsp ++ "." ++ String.intercalate "." (ps ++ [strDropRight b 4]) := by
    intro nsp files f ps b hf hparts hsuffix
    have hlast : strEndsWith (lastPart f.parts) ".sql" = true := by
      rw [hparts, lastPart_append]
      exact hsuffix
    refine ⟨_, mem_collect_sql_modules nsp files f hf hlast, ?_⟩
    simp only
    rw [hparts, stripSqlFromLast_append]
  refine ⟨main, ?_, ?_⟩
  · intro nsp c
    obtain ⟨m, hm, hname⟩ := main nsp [⟨["foo", "bar.sql"], c⟩] ⟨["foo", "bar.sql"], c⟩
      ["foo"] "bar.sql" (List.mem_singleton.mpr rfl) rfl (by decide)
    refine ⟨m, hm, ?_⟩
    rw [hname, String.append_assoc]
    exact congrArg (fun t => nsp ++ t) (by decide)
  · intro nsp c
    obtain ⟨m, hm, hname⟩ := main nsp [⟨["common.sql"], c⟩] ⟨["common.sql"], c⟩
      [] "common.sql" (List.mem_singleton.mpr rfl) rfl (by decide)
    refine ⟨m, hm, ?_⟩
    rw [hname, String.append_assoc]
    exact congrArg (fun t => nsp ++ t) (by decide)

theorem sql_module_naming_witness :
    (∃ m ∈ collect_sql_modules (some [⟨["foo", "bar.sql"], "x"⟩]) "ns",
      m.name = "ns" ++ ".foo.bar") ∧
    (∃ m ∈ collect_sql_modules (some [⟨["common.sql"], "y"⟩]) "ns",
      m.name = "ns" ++ ".common") :=
  ⟨sql_module_naming.2.1 "ns" "x", sql_module_naming.2.2 "ns" "y"⟩

/-- C9: an absent feature directory is never an error: each collector returns
its empty result, and a module whose three feature directories are all absent
still builds, producing the three empty-list JSON files. -/
theorem missing_feature_dirs_are_empty :
    (∀ nsp, collect_sql_modules none nsp = []) ∧
    collect_macros none = Except.ok [] ∧
    collect_proto_descriptors none = Except.ok ([], []) ∧
    (∀ nsp n, build_module nsp n ⟨none, none, none⟩ =
      Except.ok
        ([(["modules", n, "sql_modules"], write_json (sqlModulesFileJson [])),
          (["modules", n, "macros"], write_json (macrosFileJson [])),
          (["modules", n, "proto_descriptors"], write_json (protosFileJson []))], [])) :=
  ⟨fun _ => rfl, rfl, rfl, fun _ _ => rfl⟩

/-- C10: a macro definition file with top-level `id` and `name` but no `run`
key at all is accepted: the emitted macro has an empty `run` list.  Only a
present command entry missing its `id` (or a missing top-level `id`/`name`)
raises. -/
theorem macro_without_run_key_emits_empty_run :
    (∀ (d : MacroData) (i n : String), d.run = none → d.id = some i → d.name = some n →
      macro_from_data d = Except.ok ⟨i, n, []⟩) ∧
    (∀ (fn i n : String), isMacroDefFile fn = true →
      collect_macros (some [⟨fn, ⟨some i, some n, none⟩⟩]) = Except.ok [⟨i, n, []⟩]) := by
  constructor
  · intro d i n hrun hid hname
    simp [macro_from_data, hrun, hid, hname, normalize_run]
  · intro fn i n hfn
    simp [collect_macros, List.insertionSort, List.orderedInsert, collect_macros_sorted,
      hfn, macro_from_data, normalize_run]

theorem macro_without_run_key_emits_empty_run_witness :
    isMacroDefFile "m.yaml" = true ∧
    collect_macros (some [⟨"m.yaml", ⟨some "i", some "n", none⟩⟩]) =
      Except.ok [⟨"i", "n", []⟩] :=
  ⟨by decide, macro_without_run_key_emits_empty_run.2 "m.yaml" "i" "n" (by decide)⟩

set_option maxRecDepth 16384 in
/-- C1 counterexample: the spec's end-to-end example is wrong on the code.
With config namespace `app`, name `Ext` and the single module `perf`
containing `sql_modules/q.sql` = `"SELECT 1;\n\n"`, the build does NOT write
`modules/perf/sql_modules` with an entry named `app.perf.q` carrying sql
`"SELECT 1;\n"`: the emitted name is relative to the module's `sql_modules`
root (so it is `app.q`, without the module directory name), and
`rstrip('\n')` removes every trailing newline (so the sql is `"SELECT 1;"`). -/
theorem build_end_to_end_example_as_specified_false :
    (["modules", "perf", "sql_modules"],
      write_json (sqlModulesFileJson [⟨"app.perf.q", "SELECT 1;\n"⟩])) ∉
    resultFiles (build ⟨"app", "Ext"⟩
      [SrcEntry.dir "perf" ⟨some [⟨["q.sql"], "SELECT 1;\n\n"⟩], none, none⟩]) := by
  decide

set_option maxRecDepth 16384 in
/-- C1 amended: with config namespace `app`, name `Ext` and one module
directory `perf` containing `perf/sql_modules/q.sql` with content
`"SELECT 1;\n\n"`, the build succeeds and writes
`modules/perf/sql_modules` containing
`{"sql_modules": [{"name": "app.q", "sql": "SELECT 1;"}]}`, the empty
`macros` and `proto_descriptors` files, and a manifest listing `perf` as the
sole module. -/
theorem build_end_to_end_example :
    build ⟨"app", "Ext"⟩
      [SrcEntry.dir "perf" ⟨some [⟨["q.sql"], "SELECT 1;\n\n"⟩], none, none⟩] =
    Except.ok
      { outFiles :=
          [(["modules", "perf", "sql_modules"],
            write_json (sqlModulesFileJson [⟨"app.q", "SELECT 1;"⟩])),
           (["modules", "perf", "macros"], write_json (macrosFileJson [])),
           (["modules", "perf", "proto_descriptors"], write_json (protosFileJson [])),
           (["manifest"], write_json (manifestJson "Ext" "app" ["perf"]))],
        warnings := [],
        summary := "Built 1 modules: perf" } := by
  decide

theorem collect_protos_sorted_err (l : List ProtoFile) (f : ProtoFile) (msg : String)
    (hf : f ∈ l) (ho : f.outcome = ProtocOutcome.fails msg) :
    ∃ e, collect_protos_sorted l = Except.error e := by
  induction l with
  | nil => cases hf
  | cons g gs ih =>
    rcases List.mem_cons.mp hf with rfl | hmem
    · rw [collect_protos_sorted, ho]
      exact ⟨msg, rfl⟩
    · obtain ⟨e, he⟩ := ih hmem
      rw [collect_protos_sorted]
      cases hgo : g.outcome with
      | notFound => rw [he]; exact ⟨e, rfl⟩
      | fails m => exact ⟨m, rfl⟩
      | ok bytes => rw [he]; exact ⟨e, rfl⟩

theorem collect_proto_descriptors_err (entries : List ProtoFile) (f : ProtoFile) (msg : String)
    (hf : f ∈ entries) (hproto : strEndsWith f.fname ".proto" = true)
    (ho : f.outcome = ProtocOutcome.fails msg) :
    ∃ e, collect_proto_descriptors (some entries) = Except.error e := by
  have hmem : f ∈ (List.insertionSort (keyLe ProtoFile.fname) entries).filter
      (fun f => strEndsWith f.fname ".proto") :=
    List.mem_filter.mpr ⟨(List.perm_insertionSort _ _).mem_iff.mpr hf, hproto⟩
  exact collect_protos_sorted_err _ f msg hmem ho

theorem build_module_err_of_protos (nsp n : String) (d : ModuleDir)
    (h : ∃ e, collect_proto_descriptors d.protoDescriptors = Except.error e) :
    ∃ e, build_module nsp n d = Except.error e := by
  obtain ⟨e, he⟩ := h
  rw [build_module]
  cases hm : collect_macros d.macros with
  | error em => exact ⟨em, rfl⟩
  | ok ms => rw [he]; exact ⟨e, rfl⟩

theorem build_module_err_of_macros (nsp n : String) (d : ModuleDir)
    (h : ∃ e, collect_macros d.macros = Except.error e) :
    ∃ e, build_module nsp n d = Except.error e := by
  obtain ⟨e, he⟩ := h
  rw [build_module, he]
  exact ⟨e, rfl⟩

theorem build_loop_err (nsp : String) (l : List (String × ModuleDir)) (p : String × ModuleDir)
    (hp : p ∈ l) (h : ∃ e, build_module nsp p.1 p.2 = Except.error e) :
    ∃ e, build_loop nsp l = Except.error e := by
  induction l with
  | nil => cases hp
  | cons q qs ih =>
    obtain ⟨q1, q2⟩ := q
    rcases List.mem_cons.mp hp with rfl | hmem
    · obtain ⟨e, he⟩ := h
      rw [build_loop, he]
      exact ⟨e, rfl⟩
    · rw [build_loop]
      cases hb : build_module nsp q1 q2 with
      | error e => exact ⟨e, rfl⟩
      | ok pair =>
        obtain ⟨fs, ws⟩ := pair
        obtain ⟨e, he⟩ := ih hmem
        rw [he]
        exact ⟨e, rfl⟩

theorem build_err (config : Config) (entries : List SrcEntry) (p : String × ModuleDir)
    (hp : p ∈ dirsOf entries) (h : ∃ e, build_module config.nsp p.1 p.2 = Except.error e) :
    ∃ e, build config entries = Except.error e := by
  have hmem : p ∈ sortedDirs entries := (List.perm_insertionSort _ _).mem_iff.mpr hp
  obtain ⟨e, he⟩ := build_loop_err config.nsp (sortedDirs entries) p hmem h
  refine ⟨e, ?_⟩
  rw [build, he]

/-- C5: if the external compiler is present but an invocation on some `.proto`
file of some module fails for a reason other than a missing binary, the error
is not caught: the whole build aborts with an error. -/
theorem protoc_failure_aborts_build (config : Config) (entries : List SrcEntry)
    (p : String × ModuleDir) (f : ProtoFile) (msg : String)
    (hp : p ∈ dirsOf entries) (hf : f ∈ p.2.protoDescriptors.getD [])
    (hproto : strEndsWith f.fname ".proto" = true)
    (ho : f.outcome = ProtocOutcome.fails msg) :
    ∃ e, build config entries = Except.error e := by
  apply build_err config entries p hp
  apply build_module_err_of_protos
  cases hpd : p.2.protoDescriptors with
  | none => rw [hpd] at hf; cases hf
  | some protos =>
    rw [hpd] at hf
    exact collect_proto_descriptors_err protos f msg hf hproto ho

theorem protoc_failure_aborts_build_witness :
    (("m", (⟨none, none, some [⟨"a.proto", ProtocOutcome.fails "exit 1"⟩]⟩ : ModuleDir)) ∈
      dirsOf [SrcEntry.dir "m" ⟨none, none, some [⟨"a.proto", ProtocOutcome.fails "exit 1"⟩]⟩]) ∧
    ∃ e, build ⟨"ns", "E"⟩
      [SrcEntry.dir "m" ⟨none, none, some [⟨"a.proto", ProtocOutcome.fails "exit 1"⟩]⟩] =
      Except.error e :=
  ⟨by decide,
    protoc_failure_aborts_build ⟨"ns", "E"⟩
      [SrcEntry.dir "m" ⟨none, none, some [⟨"a.proto", ProtocOutcome.fails "exit 1"⟩]⟩]
      ("m", ⟨none, none, some [⟨"a.proto", ProtocOutcome.fails "exit 1"⟩]⟩)
      ⟨"a.proto", ProtocOutcome.fails "exit 1"⟩ "exit 1"
      (by decide) (by decide) (by decide) rfl⟩

theorem normalize_run_err (cs : List CmdData) (c : CmdData) (hc : c ∈ cs) (hid : c.id = none) :
    ∃ e, normalize_run cs = Except.error e := by
  induction cs with
  | nil => cases hc
  | cons d ds ih =>
    rcases List.mem_cons.mp hc with rfl | hmem
    · rw [normalize_run, normalize_cmd, hid]
      exact ⟨"KeyError: id", rfl⟩
    · rw [normalize_run]
      cases hd : normalize_cmd d with
      | error e => exact ⟨e, rfl⟩
      | ok x =>
        obtain ⟨e, he⟩ := ih hmem
        rw [he]
        exact ⟨e, rfl⟩

theorem macro_from_data_err_of_cmd (d : MacroData) (c : CmdData)
    (hc : c ∈ d.run.getD []) (hid : c.id = none) :
    ∃ e, macro_from_data d = Except.error e := by
  obtain ⟨e, he⟩ := normalize_run_err (d.run.getD []) c hc hid
  rw [macro_from_data, he]
  exact ⟨e, rfl⟩

theorem collect_macros_sorted_err (l : List MacroFile) (f : MacroFile)
    (hf : f ∈ l) (hkeep : isMacroDefFile f.fname = true)
    (h : ∃ e, macro_from_data f.data = Except.error e) :
    ∃ e, collect_macros_sorted l = Except.error e := by
  induction l with
  | nil => cases hf
  | cons g gs ih =>
    rcases List.mem_cons.mp hf with rfl | hmem
    · obtain ⟨e, he⟩ := h
      rw [collect_macros_sorted, if_pos hkeep, he]
      exact ⟨e, rfl⟩
    · rw [collect_macros_sorted]
      by_cases hg : isMacroDefFile g.fname = true
      · rw [if_pos hg]
        cases hgd : macro_from_data g.data with
        | error e => exact ⟨e, rfl⟩
        | ok m =>
          obtain ⟨e, he⟩ := ih hmem
          rw [he]
          exact ⟨e, rfl⟩
      · rw [if_neg hg]
        exact ih hmem

theorem collect_macros_err (files : List MacroFile) (f : MacroFile)
    (hf : f ∈ files) (hkeep : isMacroDefFile f.fname = true)
    (h : ∃ e, macro_from_data f.data = Except.error e) :
    ∃ e, collect_macros (some files) = Except.error e :=
  collect_macros_sorted_err _ f ((List.perm_insertionSort _ _).mem_iff.mpr hf) hkeep h

theorem normalize_run_ok_length (cs : List CmdData) (xs : List Command)
    (h : normalize_run cs = Except.ok xs) : xs.length = cs.length := by
  induction cs generalizing xs with
  | nil =>
    rw [normalize_run] at h
    cases h
    rfl
  | cons d ds ih =>
    rw [normalize_run] at h
    cases hd : normalize_cmd d with
    | error e => rw [hd] at h; cases h
    | ok x =>
      rw [hd] at h
      cases hds : normalize_run ds with
      | error e => rw [hds] at h; cases h
      | ok ys =>
        rw [hds] at h
        cases h
        simp [ih ys hds]

theorem macro_from_data_ok_run_length (d : MacroData) (m : MacroEntry)
    (h : macro_from_data d = Except.ok m) : m.run.length = (d.run.getD []).length := by
  rw [macro_from_data] at h
  cases hr : normalize_run (d.run.getD []) with
  | error e => rw [hr] at h; cases h
  | ok cmds =>
    rw [hr] at h
    cases hid : d.id with
    | none => rw [hid] at h; cases h
    | some i =>
      rw [hid] at h
      cases hname : d.name with
      | none => rw [hname] at h; cases h
      | some n =>
        rw [hname] at h
        cases h
        exact normalize_run_ok_length _ _ hr

theorem collect_macros_sorted_ok_sum (l : List MacroFile) (ms : List MacroEntry)
    (h : collect_macros_sorted l = Except.ok ms) :
    (ms.map (fun m => m.run.length)).sum =
      ((l.filter (fun f => isMacroDefFile f.fname)).map
        (fun f => (f.data.run.getD []).length)).sum := by
  induction l generalizing ms with
  | nil =>
    rw [collect_macros_sorted] at h
    cases h
    rfl
  | cons g gs ih =>
    rw [collect_macros_sorted] at h
    by_cases hg : isMacroDefFile g.fname = true
    · rw [if_pos hg] at h
      cases hgd : macro_from_data g.data with
      | error e => rw [hgd] at h; cases h
      | ok m =>
        rw [hgd] at h
        cases hgs : collect_macros_sorted gs with
        | error e => rw [hgs] at h; cases h
        | ok ms2 =>
          rw [hgs] at h
          cases h
          simp only [List.filter_cons, hg, if_true, List.map_cons, List.sum_cons]
          rw [ih ms2 hgs, macro_from_data_ok_run_length g.data m hgd]
    · rw [if_neg hg] at h
      simp only [List.filter_cons, hg, if_false]
      exact ih ms h

/-- C6: a macro definition file containing a command entry without an `id`
field makes the whole build fail with an error, and commands are never
silently dropped: whenever macro collection succeeds, the total number of
emitted commands equals the total number of command entries of the kept
definition files. -/
theorem macro_missing_cmd_id_fails_build :
    (∀ (config : Config) (entries : List SrcEntry) (p : String × ModuleDir)
        (f : MacroFile) (c : CmdData),
      p ∈ dirsOf entries → f ∈ p.2.macros.getD [] → isMacroDefFile f.fname = true →
      c ∈ f.data.run.getD [] → c.id = none →
      ∃ e, build config entries = Except.error e) ∧
    (∀ (files : List MacroFile) (ms : List MacroEntry),
      collect_macros (some files) = Except.ok ms →
      (ms.map (fun m => m.run.length)).sum =
        ((files.filter (fun f => isMacroDefFile f.fname)).map
          (fun f => (f.data.run.getD []).length)).sum) := by
  constructor
  · intro config entries p f c hp hf hkeep hc hid
    apply build_err config entries p hp
    apply build_module_err_of_macros
    cases hpm : p.2.macros with
    | none => rw [hpm] at hf; cases hf
    | some files =>
      rw [hpm] at hf
      exact collect_macros_err files f hf hkeep (macro_from_data_err_of_cmd f.data c hc hid)
  · intro files ms h
    have hperm : List.Perm
        ((List.insertionSort (keyLe MacroFile.fname) files).filter
          (fun f => isMacroDefFile f.fname))
        (files.filter (fun f => isMacroDefFile f.fname)) :=
      (List.perm_insertionSort _ _).filter _
    rw [collect_macros] at h
    rw [collect_macros_sorted_ok_sum _ ms h]
    exact (hperm.map _).sum_eq

theorem macro_missing_cmd_id_fails_build_witness :
    (∃ e, build ⟨"ns", "E"⟩
      [SrcEntry.dir "m" ⟨none, some [⟨"a.yaml", ⟨some "i", some "n",
        some [⟨none, none⟩]⟩⟩], none⟩] = Except.error e) ∧
    collect_macros (some [⟨"b.yaml", ⟨some "i", some "n",
      some [⟨some "c1", none⟩, ⟨some "c2", some ["x"]⟩]⟩⟩]) =
      Except.ok [⟨"i", "n", [⟨"c1", []⟩, ⟨"c2", ["x"]⟩]⟩] ∧
    ([(⟨"i", "n", [⟨"c1", []⟩, ⟨"c2", ["x"]⟩]⟩ : MacroEntry)].map
      (fun m => m.run.length)).sum =
      (([(⟨"b.yaml", ⟨some "i", some "n", some [⟨some "c1", none⟩, ⟨some "c2", some ["x"]⟩]⟩⟩ :
        MacroFile)].filter (fun f => isMacroDefFile f.fname)).map
        (fun f => (f.data.run.getD []).length)).sum :=
  ⟨macro_missing_cmd_id_fails_build.1 ⟨"ns", "E"⟩
      [SrcEntry.dir "m" ⟨none, some [⟨"a.yaml", ⟨some "i", some "n",
        some [⟨none, none⟩]⟩⟩], none⟩]
      ("m", ⟨none, some [⟨"a.yaml", ⟨some "i", some "n", some [⟨none, none⟩]⟩⟩], none⟩)
      ⟨"a.yaml", ⟨some "i", some "n", some [⟨none, none⟩]⟩⟩ ⟨none, none⟩
      (by decide) (by decide) (by decide) (by decide) rfl,
   by decide,
   macro_missing_cmd_id_fails_build.2
     [⟨"b.yaml", ⟨some "i", some "n", some [⟨some "c1", none⟩, ⟨some "c2", some ["x"]⟩]⟩⟩]
     [⟨"i", "n", [⟨"c1", []⟩, ⟨"c2", ["x"]⟩]⟩] (by decide)⟩

theorem collect_protos_sorted_all_notfound (l : List ProtoFile)
    (h : ∀ f ∈ l, f.outcome = ProtocOutcome.notFound) :
    collect_protos_sorted l = Except.ok ([], l.map (fun f => protoWarning f.fname)) := by
  induction l with
  | nil => rfl
  | cons g gs ih =>
    have hg := h g (List.mem_cons_self g gs)
    have hgs := ih (fun f hf => h f (List.mem_cons_of_mem g hf))
    rw [collect_protos_sorted, hg, hgs]
    rfl

theorem collect_proto_descriptors_all_notfound (pd : Option (List ProtoFile))
    (h : ∀ f ∈ pd.getD [], f.outcome = ProtocOutcome.notFound) :
    ∃ ws, collect_proto_descriptors pd = Except.ok ([], ws) ∧
      ws.length = ((pd.getD []).filter (fun f => strEndsWith f.fname ".proto")).length ∧
      ∀ w ∈ ws, ∃ fn, w = protoWarning fn := by
  cases pd with
  | none => exact ⟨[], rfl, rfl, fun w hw => absurd hw (List.not_mem_nil w)⟩
  | some entries =>
    have hperm : List.Perm (List.insertionSort (keyLe ProtoFile.fname) entries) entries :=
      List.perm_insertionSort _ _
    have hall : ∀ f ∈ (List.insertionSort (keyLe ProtoFile.fname) entries).filter
        (fun f => strEndsWith f.fname ".proto"), f.outcome = ProtocOutcome.notFound :=
      fun f hf => h f (hperm.mem_iff.mp (List.mem_of_mem_filter hf))
    refine ⟨_, collect_protos_sorted_all_notfound _ hall, ?_, ?_⟩
    · rw [List.length_map]
      exact (hperm.filter _).length_eq
    · intro w hw
      obtain ⟨f, _, hwf⟩ := List.mem_map.mp hw
      exact ⟨f.fname, hwf.symm⟩

theorem build_module_ok_all_notfound (nsp n : String) (d : ModuleDir)
    (hm : ∃ ms, collect_macros d.macros = Except.ok ms)
    (hp : ∀ f ∈ d.protoDescriptors.getD [], f.outcome = ProtocOutcome.notFound) :
    ∃ fs ws, build_module nsp n d = Except.ok (fs, ws) ∧
      (["modules", n, "proto_descriptors"], write_json (protosFileJson [])) ∈ fs ∧
      ws.length = protoCount d ∧ ∀ w ∈ ws, ∃ fn, w = protoWarning fn := by
  obtain ⟨ms, hms⟩ := hm
  obtain ⟨ws, hws, hlen, hshape⟩ := collect_proto_descriptors_all_notfound d.protoDescriptors hp
  refine ⟨[(["modules", n, "sql_modules"],
      write_json (sqlModulesFileJson (collect_sql_modules d.sqlModules nsp))),
    (["modules", n, "macros"], write_json (macrosFileJson ms)),
    (["modules", n, "proto_descriptors"], write_json (protosFileJson []))],
    ws, ?_, ?_, hlen, hshape⟩
  · simp only [build_module, hms, hws]
  · exact List.mem_cons_of_mem _ (List.mem_cons_of_mem _ (List.mem_cons_self _ _))

theorem build_loop_ok_all_notfound (nsp : String) (l : List (String × ModuleDir))
    (hm : ∀ p ∈ l, ∃ ms, collect_macros p.2.macros = Except.ok ms)
    (hp : ∀ p ∈ l, ∀ f ∈ p.2.protoDescriptors.getD [], f.outcome = ProtocOutcome.notFound) :
    ∃ fs ws, build_loop nsp l = Except.ok (fs, ws) ∧
      (∀ p ∈ l, (["modules", p.1, "proto_descriptors"], write_json (protosFileJson [])) ∈ fs) ∧
      ws.length = (l.map (fun p => protoCount p.2)).sum ∧
      ∀ w ∈ ws, ∃ fn, w = protoWarning fn := by
  induction l with
  | nil => exact ⟨[], [], rfl, fun p hp => absurd hp (List.not_mem_nil p),
      rfl, fun w hw => absurd hw (List.not_mem_nil w)⟩
  | cons q qs ih =>
    obtain ⟨q1, q2⟩ := q
    obtain ⟨fs1, ws1, hb1, hmem1, hlen1, hshape1⟩ :=
      build_module_ok_all_notfound nsp q1 q2 (hm _ (List.mem_cons_self _ _))
        (hp _ (List.mem_cons_self _ _))
    obtain ⟨fs2, ws2, hb2, hmem2, hlen2, hshape2⟩ :=
      ih (fun p hpq => hm p (List.mem_cons_of_mem _ hpq))
        (fun p hpq => hp p (List.mem_cons_of_mem _ hpq))
    refine ⟨fs1 ++ fs2, ws1 ++ ws2, ?_, ?_, ?_, ?_⟩
    · rw [build_loop, hb1, hb2]
    · intro p hpq
      rcases List.mem_cons.mp hpq with rfl | hpq2
      · exact List.mem_append_left _ hmem1
      · exact List.mem_append_right _ (hmem2 p hpq2)
    · rw [List.length_append, hlen1, hlen2, List.map_cons, List.sum_cons]
    · intro w hw
      rcases List.mem_append.mp hw with hw1 | hw2
      · exact hshape1 w hw1
      · exact hshape2 w hw2

/-- C4: when the compiler binary cannot be located (every invocation raises
`FileNotFoundError`), the build still succeeds as long as the macro files are
well formed: every module's `proto_descriptors` output file is the empty-list
JSON, one warning is printed per skipped `.proto` file (each with the
`protoc not found` text), and the SQL, macro and manifest outputs are
produced as usual. -/
theorem protoc_missing_is_nonfatal (config : Config) (entries : List SrcEntry)
    (hmac : ∀ p ∈ dirsOf entries, ∃ ms, collect_macros p.2.macros = Except.ok ms)
    (hnf : ∀ p ∈ dirsOf entries, ∀ f ∈ p.2.protoDescriptors.getD [],
      f.outcome = ProtocOutcome.notFound) :
    ∃ r, build config entries = Except.ok r ∧
      (∀ p ∈ dirsOf entries,
        (["modules", p.1, "proto_descriptors"], write_json (protosFileJson [])) ∈ r.outFiles) ∧
      r.warnings.length = ((dirsOf entries).map (fun p => protoCount p.2)).sum ∧
      (∀ w ∈ r.warnings, ∃ fn, w = protoWarning fn) := by
  have hperm : List.Perm (sortedDirs entries) (dirsOf entries) := List.perm_insertionSort _ _
  obtain ⟨fs, ws, hloop, hmem, hlen, hshape⟩ :=
    build_loop_ok_all_notfound config.nsp (sortedDirs entries)
      (fun p hps => hmac p (hperm.mem_iff.mp hps))
      (fun p hps => hnf p (hperm.mem_iff.mp hps))
  refine ⟨⟨fs ++
      [(["manifest"],
        write_json (manifestJson config.name config.nsp ((sortedDirs entries).map Prod.fst)))],
      ws,
      "Built " ++ natToStr ((sortedDirs entries).map Prod.fst).length ++ " modules: " ++
        String.intercalate ", " ((sortedDirs entries).map Prod.fst)⟩,
    ?_, ?_, ?_, hshape⟩
  · simp only [build, hloop]
  · intro p hpd
    exact List.mem_append_left _ (hmem p (hperm.mem_iff.mpr hpd))
  · rw [hlen]
    exact ((hperm.map (fun p => protoCount p.2)).sum_eq)

theorem protoc_missing_is_nonfatal_witness :
    ∃ r, build ⟨"ns", "E"⟩
        [SrcEntry.dir "m" ⟨none, none,
          some [⟨"a.proto", ProtocOutcome.notFound⟩, ⟨"b.txt", ProtocOutcome.notFound⟩]⟩] =
      Except.ok r ∧
      (∀ p ∈ dirsOf [SrcEntry.dir "m" ⟨none, none,
          some [⟨"a.proto", ProtocOutcome.notFound⟩, ⟨"b.txt", ProtocOutcome.notFound⟩]⟩],
        (["modules", p.1, "proto_descriptors"], write_json (protosFileJson [])) ∈ r.outFiles) ∧
      r.warnings.length =
        ((dirsOf [SrcEntry.dir "m" ⟨none, none,
          some [⟨"a.proto", ProtocOutcome.notFound⟩, ⟨"b.txt", ProtocOutcome.notFound⟩]⟩]).map
          (fun p => protoCount p.2)).sum ∧
      (∀ w ∈ r.warnings, ∃ fn, w = protoWarning fn) :=
  protoc_missing_is_nonfatal ⟨"ns", "E"⟩
    [SrcEntry.dir "m" ⟨none, none,
      some [⟨"a.proto", ProtocOutcome.notFound⟩, ⟨"b.txt", ProtocOutcome.notFound⟩]⟩]
    (by intro p hp; simp [dirsOf] at hp; subst hp; exact ⟨[], rfl⟩)
    (by
      intro p hp f hf
      simp [dirsOf] at hp
      subst hp
      simp at hf
      rcases hf with rfl | rfl <;> rfl)

theorem dirsOf_map_fst (entries : List SrcEntry) :
    (dirsOf entries).map Prod.fst = dirNames entries := by
  induction entries with
  | nil => rfl
  | cons e es ih =>
    cases e with
    | file n => simpa [dirsOf, dirNames, List.filterMap_cons] using ih
    | dir n d => simpa [dirsOf, dirNames, List.filterMap_cons] using ih

/-- C7: whenever the build succeeds, the last file written is the manifest,
whose `modules` list is exactly the ascending (Python string order) sort of
the names of the immediate subdirectories of the source root: plain files are
excluded, and subdirectories contributing no SQL modules, macros or proto
descriptors still appear. -/
theorem manifest_lists_sorted_subdirs (config : Config) (entries : List SrcEntry)
    (r : BuildResult) (h : build config entries = Except.ok r) :
    ∃ mods : List String,
      r.outFiles.getLast? =
        some (["manifest"], write_json (manifestJson config.name config.nsp mods)) ∧
      List.Perm mods (dirNames entries) ∧ mods.Sorted pyStrLe := by
  simp only [build] at h
  cases hloop : build_loop config.nsp (sortedDirs entries) with
  | error e =>
    rw [hloop] at h
    simp at h
  | ok pair =>
    obtain ⟨fs, ws⟩ := pair
    rw [hloop] at h
    have hx := Except.ok.inj h
    refine ⟨(sortedDirs entries).map Prod.fst, ?_, ?_, ?_⟩
    · rw [← hx]
      exact List.getLast?_concat fs
    · have hperm := (List.perm_insertionSort (keyLe Prod.fst) (dirsOf entries)).map Prod.fst
      rw [dirsOf_map_fst] at hperm
      exact hperm
    · have hs : (sortedDirs entries).Sorted (keyLe (Prod.fst : String × ModuleDir → String)) :=
        List.sorted_insertionSort _ _
      exact List.pairwise_map.mpr hs

set_option maxRecDepth 16384 in
theorem manifest_lists_sorted_subdirs_witness :
    ∃ r, build ⟨"ns", "E"⟩ [SrcEntry.dir "z" ⟨none, none, none⟩, SrcEntry.file "x",
        SrcEntry.dir "a" ⟨none, none, none⟩] = Except.ok r ∧
      ∃ mods : List String,
        r.outFiles.getLast? =
          some (["manifest"], write_json (manifestJson "E" "ns" mods)) ∧
        List.Perm mods (dirNames [SrcEntry.dir "z" ⟨none, none, none⟩, SrcEntry.file "x",
          SrcEntry.dir "a" ⟨none, none, none⟩]) ∧ mods.Sorted pyStrLe :=
  ⟨_, rfl, manifest_lists_sorted_subdirs ⟨"ns", "E"⟩ _ _ rfl⟩

set_option maxRecDepth 16384 in
/-- C8 counterexample: the build output is NOT independent of filesystem
enumeration order for every valid source tree.  Two `.sql` files at distinct
paths `a/b.c.sql` and `a.b/c.sql` both map to the dotted name `ns.a.b.c`;
the final sort is stable and keyed on the name only, so the two entries keep
the order in which `os.walk` enumerated the sibling directories `a` and
`a.b`, and the written `sql_modules` file differs between the two orders. -/
theorem build_depends_on_enumeration_order :
    List.Perm [(⟨["a", "b.c.sql"], "X"⟩ : SqlFile), ⟨["a.b", "c.sql"], "Y"⟩]
      [⟨["a.b", "c.sql"], "Y"⟩, ⟨["a", "b.c.sql"], "X"⟩] ∧
    resultFiles (build ⟨"ns", "E"⟩
      [SrcEntry.dir "m"
        ⟨some [⟨["a", "b.c.sql"], "X"⟩, ⟨["a.b", "c.sql"], "Y"⟩], none, none⟩]) ≠
    resultFiles (build ⟨"ns", "E"⟩
      [SrcEntry.dir "m"
        ⟨some [⟨["a.b", "c.sql"], "Y"⟩, ⟨["a", "b.c.sql"], "X"⟩], none, none⟩]) :=
  ⟨List.Perm.swap _ _ _, by decide⟩

/-- C8 amended: the build output is a function of the inputs alone,
independent of filesystem enumeration order, at every directory listing whose
sort key is duplicate-free: permuting a `sql_modules` walk leaves the
collected list unchanged provided the derived dotted module names are
pairwise distinct; permuting a `macros` or `proto_descriptors` listing leaves
the collector output unchanged provided file names are pairwise distinct (as
they always are within one real directory); and permuting the source root
leaves the entire build result byte-identical provided the module directory
names are pairwise distinct. -/
theorem build_deterministic_on_distinct_keys :
    (∀ (nsp : String) (l1 l2 : List SqlFile), List.Perm l1 l2 →
      ((collect_sql_modules (some l1) nsp).map SqlModule.name).Nodup →
      collect_sql_modules (some l1) nsp = collect_sql_modules (some l2) nsp) ∧
    (∀ l1 l2 : List MacroFile, List.Perm l1 l2 → (l1.map MacroFile.fname).Nodup →
      collect_macros (some l1) = collect_macros (some l2)) ∧
    (∀ l1 l2 : List ProtoFile, List.Perm l1 l2 → (l1.map ProtoFile.fname).Nodup →
      collect_proto_descriptors (some l1) = collect_proto_descriptors (some l2)) ∧
    (∀ (config : Config) (e1 e2 : List SrcEntry), List.Perm e1 e2 → (dirNames e1).Nodup →
      build config e1 = build config e2) := by
  refine ⟨?_, ?_, ?_, ?_⟩
  · intro nsp l1 l2 hp hn
    rw [collect_sql_modules_some, collect_sql_modules_some]
    apply sorted_key_nodup_eq SqlModule.name
    · exact (List.perm_insertionSort _ _).trans
        ((hp.filterMap _).trans (List.perm_insertionSort _ _).symm)
    · exact List.sorted_insertionSort _ _
    · exact List.sorted_insertionSort _ _
    · exact hn
  · intro l1 l2 hp hn
    have hsorted : List.insertionSort (keyLe MacroFile.fname) l1 =
        List.insertionSort (keyLe MacroFile.fname) l2 := by
      apply sorted_key_nodup_eq MacroFile.fname
      · exact (List.perm_insertionSort _ _).trans (hp.trans (List.perm_insertionSort _ _).symm)
      · exact List.sorted_insertionSort _ _
      · exact List.sorted_insertionSort _ _
      · exact (((List.perm_insertionSort (keyLe MacroFile.fname) l1).map
          MacroFile.fname).symm).nodup hn
    simp only [collect_macros]
    rw [hsorted]
  · intro l1 l2 hp hn
    have hsorted : List.insertionSort (keyLe ProtoFile.fname) l1 =
        List.insertionSort (keyLe ProtoFile.fname) l2 := by
      apply sorted_key_nodup_eq ProtoFile.fname
      · exact (List.perm_insertionSort _ _).trans (hp.trans (List.perm_insertionSort _ _).symm)
      · exact List.sorted_insertionSort _ _
      · exact List.sorted_insertionSort _ _
      · exact (((List.perm_insertionSort (keyLe ProtoFile.fname) l1).map
          ProtoFile.fname).symm).nodup hn
    simp only [collect_proto_descriptors]
    rw [hsorted]
  · intro config e1 e2 hp hn
    have hsd : sortedDirs e1 = sortedDirs e2 := by
      apply sorted_key_nodup_eq (Prod.fst : String × ModuleDir → String)
      · exact (List.perm_insertionSort _ _).trans
          ((hp.filterMap _).trans (List.perm_insertionSort _ _).symm)
      · exact List.sorted_insertionSort _ _
      · exact List.sorted_insertionSort _ _
      · apply (((List.perm_insertionSort (keyLe Prod.fst) (dirsOf e1)).map Prod.fst).symm).nodup
        rw [dirsOf_map_fst]
        exact hn
    simp only [build, sortedDirs] at hsd ⊢
    rw [hsd]

set_option maxRecDepth 16384 in
theorem build_deterministic_on_distinct_keys_witness :
    List.Perm [SrcEntry.dir "b" (⟨none, none, none⟩ : ModuleDir),
        SrcEntry.dir "a" ⟨none, none, none⟩]
      [SrcEntry.dir "a" ⟨none, none, none⟩, SrcEntry.dir "b" ⟨none, none, none⟩] ∧
    (dirNames [SrcEntry.dir "b" ⟨none, none, none⟩,
      SrcEntry.dir "a" ⟨none, none, none⟩]).Nodup ∧
    build ⟨"ns", "E"⟩ [SrcEntry.dir "b" ⟨none, none, none⟩,
        SrcEntry.dir "a" ⟨none, none, none⟩] =
      build ⟨"ns", "E"⟩ [SrcEntry.dir "a" ⟨none, none, none⟩,
        SrcEntry.dir "b" ⟨none, none, none⟩] :=
  ⟨List.Perm.swap _ _ _, by decide,
    build_deterministic_on_distinct_keys.2.2.2 ⟨"ns", "E"⟩ _ _
      (List.Perm.swap _ _ _) (by decide)⟩
